import Mathlib

/-!
Shallow embedding of the core of gearbox_check.py: the ABI call codec
(decode_addresses, decode_credit_account_info, string and scalar decoding),
the token resolver, the collateral scanner, the per-manager position scan
and the valuation aggregation of cmd_position.

Conventions of the embedding:
* Python byte strings are `List Nat` (each element a byte value).
* Python `None`-or-string values (the result of eth_call) are `Option String`.
* A Python exception escaping a region is `Except.error ()`; a normal
  return is `Except.ok`.
* Python slicing `xs[a:b]` (with its silent clamping at the ends) is
  `pySlice`; `xs[-n:]` is `lastN`.
* Machine integers do not occur: Python ints are `Nat` throughout.
-/

set_option linter.unusedVariables false
set_option maxRecDepth 65536
set_option synthInstance.maxSize 2000

/-- Value of one hexadecimal digit character, as in Python int parsing and
bytes.fromhex. -/
def hexVal (c : Char) : Option Nat :=
  if '0' ≤ c ∧ c ≤ '9' then some (c.toNat - '0'.toNat)
  else if 'a' ≤ c ∧ c ≤ 'f' then some (c.toNat - 'a'.toNat + 10)
  else if 'A' ≤ c ∧ c ≤ 'F' then some (c.toNat - 'A'.toNat + 10)
  else none

/-- Model of Python bytes.fromhex on whitespace-free input: consume pairs of
hex digits; an odd-length or non-hex input raises (here: `none`). -/
def fromHexChars : List Char → Option (List Nat)
  | [] => some []
  | [_] => none
  | c1 :: c2 :: rest =>
    match hexVal c1, hexVal c2, fromHexChars rest with
    | some h, some l, some r => some ((h * 16 + l) :: r)
    | _, _, _ => none

/-- Python int.from_bytes(bytes, big-endian). On the empty byte string this
is 0, exactly as in Python. -/
def bytesToNat (l : List Nat) : Nat :=
  l.foldl (fun acc b => acc * 256 + b) 0

/-- Decidable equality for Except results, so concrete runs can be checked
by evaluation. -/
instance {ε α : Type} [DecidableEq ε] [DecidableEq α] : DecidableEq (Except ε α) := fun x y =>
  match x, y with
  | .error a, .error b =>
    if h : a = b then .isTrue (by rw [h]) else .isFalse (fun hc => h (by cases hc; rfl))
  | .error _, .ok _ => .isFalse (fun hc => Except.noConfusion hc)
  | .ok _, .error _ => .isFalse (fun hc => Except.noConfusion hc)
  | .ok a, .ok b =>
    if h : a = b then .isTrue (by rw [h]) else .isFalse (fun hc => h (by cases hc; rfl))

/-- Python slice `xs[a:b]` for 0 ≤ a ≤ b: out-of-range bounds clamp
silently to the list's length. -/
def pySlice {α : Type} (xs : List α) (a b : Nat) : List α :=
  (xs.drop a).take (b - a)

/-- Python slice `xs[-n:]`: the last n elements, or the whole list when it
is shorter than n. -/
def lastN {α : Type} (n : Nat) (xs : List α) : List α :=
  xs.drop (xs.length - n)

/-- Python slice `s[-n:]` on a string. -/
def strLastN (n : Nat) (s : String) : String :=
  String.mk (s.toList.drop (s.length - n))

/-- Python str.lower() for the ASCII addresses and hex payloads this
program handles: per-character lowercasing. -/
def pyLower (s : String) : String :=
  String.mk (s.data.map Char.toLower)

/-- Python s.replace("0x", ""): delete every occurrence of the two
characters 0 x, scanning left to right without overlap. -/
def remove0x : List Char → List Char
  | [] => []
  | [c] => [c]
  | c1 :: c2 :: rest =>
    if c1 = '0' ∧ c2 = 'x' then remove0x rest
    else c1 :: remove0x (c2 :: rest)

/-- Python s.split(":"): accumulate the current segment (reversed) and cut
at each colon. -/
def splitColonAux : List Char → List Char → List (List Char)
  | [], acc => [acc.reverse]
  | c :: rest, acc =>
    if c = ':' then acc.reverse :: splitColonAux rest []
    else splitColonAux rest (c :: acc)

/-- Python s.split(":") on a string. -/
def pySplitColon (s : String) : List String :=
  (splitColonAux s.toList []).map String.mk

/-- Lowercase hex digit character for a value below 16, as produced by
bytes.hex() and hex(). -/
def hexDigit (n : Nat) : Char :=
  if n < 10 then Char.ofNat ('0'.toNat + n) else Char.ofNat ('a'.toNat + n - 10)

/-- Two lowercase hex characters of one byte. -/
def byteToHexChars (b : Nat) : List Char :=
  [hexDigit (b / 16), hexDigit (b % 16)]

/-- Model of Python bytes.hex(): lowercase, two characters per byte. -/
def bytesToHexChars : List Nat → List Char
  | [] => []
  | b :: rest => byteToHexChars b ++ bytesToHexChars rest

/-- Hex rendering of a byte string as a Lean String. -/
def bytesHex (l : List Nat) : String :=
  String.mk (bytesToHexChars l)

/-- Big-endian byte string of fixed width `w` for a natural number, the
inverse of `bytesToNat` below `256 ^ w`. -/
def natToBeBytes : Nat → Nat → List Nat
  | 0, _ => []
  | w + 1, n => natToBeBytes w (n / 256) ++ [n % 256]

/-- Python str.zfill(64): pad on the left with '0' up to 64 characters. -/
def zfill64 (cs : List Char) : List Char :=
  List.replicate (64 - cs.length) '0' ++ cs

/-- Model of Python int(s, 16) restricted to the shapes produced by RPC
returns: an optional 0x or 0X prefix followed by one or more hex digits;
signs, whitespace and underscores are not modelled. Anything else raises
(here: `none`). -/
def parseHexDigitsAux : List Char → Nat → Option Nat
  | [], acc => some acc
  | c :: rest, acc =>
    match hexVal c with
    | none => none
    | some v => parseHexDigitsAux rest (acc * 16 + v)

/-- See `parseHexDigitsAux`. -/
def parseHexInt (s : String) : Option Nat :=
  let cs := s.toList
  let cs := if cs.take 2 = ['0', 'x'] ∨ cs.take 2 = ['0', 'X'] then cs.drop 2 else cs
  match cs with
  | [] => none
  | _ => parseHexDigitsAux cs 0

/-- creditAccountInfo(address) return struct, as decoded by
decode_credit_account_info in gearbox_check.py. -/
structure CreditAccountInfo where
  debt : Nat
  cumulative_index : Nat
  quota_interest : Nat
  quota_fees : Nat
  enabled_mask : Nat
  flags : Nat
  last_update : Nat
  borrower : String
deriving DecidableEq

/-- decode_addresses: decode an ABI-encoded dynamic array of addresses.
The input is the eth_call result (`none` models Python None); `.error ()`
models the ValueError raised by bytes.fromhex on non-hex input. -/
def decode_addresses (hex_data : Option String) : Except Unit (List String) :=
  match hex_data with
  | none => .ok []
  | some s =>
    if s = ("") ∨ s = ("0x") ∨ s.length < 130 then .ok []
    else
      match fromHexChars (s.toList.drop 2) with
      | none => .error ()
      | some raw =>
        if raw.length < 64 then .ok []
        else
          let offset := bytesToNat (pySlice raw 0 32)
          let len := bytesToNat (pySlice raw offset (offset + 32))
          .ok ((List.range len).map (fun i =>
            let start := offset + 32 + i * 32
            let addr_bytes := pySlice raw start (start + 32)
            "0x" ++ bytesHex (lastN 20 addr_bytes)))

/-- decode_credit_account_info: decode the 8-word creditAccountInfo struct.
`.ok none` is the explicit Python None no-data result. -/
def decode_credit_account_info (hex_data : Option String) :
    Except Unit (Option CreditAccountInfo) :=
  match hex_data with
  | none => .ok none
  | some s =>
    if s = ("") ∨ s = ("0x") ∨ s.length < 514 then .ok none
    else
      match fromHexChars (s.toList.drop 2) with
      | none => .error ()
      | some raw =>
        .ok (some {
          debt := bytesToNat (pySlice raw 0 32)
          cumulative_index := bytesToNat (pySlice raw 32 64)
          quota_interest := bytesToNat (pySlice raw 64 96)
          quota_fees := bytesToNat (pySlice raw 96 128)
          enabled_mask := bytesToNat (pySlice raw 128 160)
          flags := bytesToNat (pySlice raw 160 192)
          last_update := bytesToNat (pySlice raw 192 224)
          borrower := "0x" ++ bytesHex (lastN 20 (pySlice raw 224 256)) })

/-- Function selector constants of gearbox_check.py. -/
def SEL_CREDIT_ACCOUNTS : String := "0x741f3e3c"

/-- creditAccountInfo(address). -/
def SEL_CREDIT_ACCOUNT_INFO : String := "0x3c5bc3b2"

/-- pool(). -/
def SEL_POOL : String := "0x16f0115b"

/-- asset(). -/
def SEL_ASSET : String := "0x38d52e0f"

/-- underlyingToken(). -/
def SEL_UNDERLYING_TOKEN : String := "0x2495a599"

/-- collateralTokenByMask(uint256). -/
def SEL_COLLATERAL_TOKEN : String := "0x52c5fe11"

/-- balanceOf(address). -/
def SEL_BALANCE_OF : String := "0x70a08231"

/-- symbol(). -/
def SEL_SYMBOL : String := "0x95d89b41"

/-- decimals(). -/
def SEL_DECIMALS : String := "0x313ce567"

/-- The chain reader boundary: eth_call as a function of (target, calldata).
`.ok none` is Python None (an RPC-level error field); `.ok (some s)` is the
hex result string; `.error ()` is a transport exception raised by the call. -/
abbrev EthOracle : Type := String → String → Except Unit (Option String)

/-- The KNOWN_TOKENS table / token-resolver cache: entries of
(lowercase address key, symbol, decimals), newest first. -/
abbrev Known : Type := List (String × String × Nat)

/-- First entry of the table whose key equals the given key (Python dict
lookup for this write-once-newest-first usage). -/
def lookupKnown : Known → String → Option (String × Nat)
  | [], _ => none
  | (k, s, d) :: rest, key => if k = key then some (s, d) else lookupKnown rest key

/-- The static KNOWN_TOKENS table of gearbox_check.py (initial cache
contents). -/
def KNOWN_TOKENS : Known :=
  [("0xc02aaa39b223fe8d0a0e5c4f27ead9083c756cc2", "WETH", 18),
   ("0xa0b86991c6218b36c1d19d4a2e9eb0ce3606eb48", "USDC", 6),
   ("0xdac17f958d2ee523a2206206994597c13d831ec7", "USDT", 6),
   ("0x6b175474e89094c44da98b954eedeac495271d0f", "DAI", 18),
   ("0x2260fac5e5542a773aa44fbcfedf7c193bc2c599", "WBTC", 8),
   ("0x7f39c581f595b53c5cb19bd0b3f8da6c935e2ca0", "wstETH", 18),
   ("0xae78736cd615f374d3085123a210448e74fc6393", "rETH", 18),
   ("0xf939e0a03fb07f59a73314e73794be0e57ac1b4e", "crvUSD", 18),
   ("0x83f20f44975d03b1b09e64809b757c47f942beea", "sDAI", 18),
   ("0x18084fba666a33d37592fa2633fd49a74dd93a88", "tBTC", 18),
   ("0x40d16fc0246ad3160ccc09b8d0d3a2cd28ae6c2f", "GHO", 18)]

/-- Python account_addr.lower().replace("0x", "").zfill(64), the 32-byte
right-aligned address argument word used for calldata. -/
def pyPadAddr (s : String) : String :=
  String.mk (zfill64 (remove0x (pyLower s).toList))

/-- Python hex(1 << bit)[2:].zfill(64), the single-bit mask argument word
of collateralTokenByMask. -/
def padMask (bit : Nat) : String :=
  String.mk (zfill64 (Nat.toDigits 16 (1 <<< bit)))

/-- Model of Python bytes.decode("utf-8", errors="replace"), which never
raises. The claims below depend only on whether the decoded text is empty,
which this byte-wise rendering preserves: the decoded string is empty
exactly when the byte sequence is. -/
def bytesToText (l : List Nat) : String :=
  String.mk (l.map (fun b => Char.ofNat b))

/-- read_token_symbol: read symbol() on-chain and decode the ABI string.
Decode problems are swallowed by the inner try (returning None); only a
transport exception of eth_call itself escapes. -/
def read_token_symbol (oracle : EthOracle) (token_addr : String) :
    Except Unit (Option String) :=
  match oracle token_addr SEL_SYMBOL with
  | .error e => .error e
  | .ok none => .ok none
  | .ok (some r) =>
    if r = ("") ∨ r = ("0x") ∨ r.length < 66 then .ok none
    else
      match fromHexChars (r.toList.drop 2) with
      | none => .ok none
      | some raw =>
        let offset := bytesToNat (pySlice raw 0 32)
        let len := bytesToNat (pySlice raw offset (offset + 32))
        .ok (some (bytesToText (pySlice raw (offset + 32) (offset + 32 + len))))

/-- read_token_decimals: read decimals() on-chain; every failure or empty
decode falls back to 18. Only a transport exception escapes. -/
def read_token_decimals (oracle : EthOracle) (token_addr : String) :
    Except Unit Nat :=
  match oracle token_addr SEL_DECIMALS with
  | .error e => .error e
  | .ok none => .ok 18
  | .ok (some r) =>
    if r = ("") ∨ r = ("0x") ∨ r.length < 66 then .ok 18
    else
      match parseHexInt r with
      | none => .ok 18
      | some n => .ok n

/-- read_balance: ERC20 balanceOf for an account, 0 on missing or
unparsable data. -/
def read_balance (oracle : EthOracle) (token_addr account_addr : String) :
    Except Unit Nat :=
  match oracle token_addr (SEL_BALANCE_OF ++ pyPadAddr account_addr) with
  | .error e => .error e
  | .ok none => .ok 0
  | .ok (some r) =>
    if r = ("") ∨ r = ("0x") then .ok 0
    else
      match parseHexInt r with
      | none => .ok 0
      | some n => .ok n

/-- The token-resolution step of cmd_position (its per-collateral-token
body): consult the KNOWN_TOKENS cache by lowercase address; on a miss call
symbol() and decimals() on-chain (the Python `or` makes both None and the
empty decoded string fall back to the truncated address display) and write
the entry back into the cache. The final component counts the eth_calls
issued (0 on a cache hit, 2 on a miss: one by read_token_symbol, one by
read_token_decimals). -/
def resolve_token (oracle : EthOracle) (known : Known) (token_addr : String) :
    Except Unit ((String × Nat) × Known × Nat) :=
  let key := pyLower token_addr
  match lookupKnown known key with
  | some sd => .ok (sd, known, 0)
  | none =>
    match read_token_symbol oracle token_addr with
    | .error e => .error e
    | .ok symRes =>
      let sym := match symRes with
        | none => token_addr.take 10 ++ "..."
        | some s => if s = ("") then token_addr.take 10 ++ "..." else s
      match read_token_decimals oracle token_addr with
      | .error e => .error e
      | .ok dec => .ok ((sym, dec), (key, sym, dec) :: known, 2)

/-- get_underlying: pool() on the manager, then asset() on the pool with
underlyingToken() as fallback. Returns (pool address, underlying address),
either possibly absent. -/
def get_underlying (oracle : EthOracle) (cm_addr : String) :
    Except Unit (Option String × Option String) :=
  match oracle cm_addr SEL_POOL with
  | .error e => .error e
  | .ok pool_data =>
    match pool_data with
    | none => .ok (none, none)
    | some pd =>
      if pd = ("") ∨ pd.length < 66 then .ok (none, none)
      else
        let pool_addr := "0x" ++ strLastN 40 pd
        match oracle pool_addr SEL_ASSET with
        | .error e => .error e
        | .ok ud1 =>
          let next : Except Unit (Option String) :=
            match ud1 with
            | none => match oracle pool_addr SEL_UNDERLYING_TOKEN with
              | .error e => .error e
              | .ok u => .ok u
            | some u =>
              if u = ("") ∨ u.length < 66 then
                match oracle pool_addr SEL_UNDERLYING_TOKEN with
                | .error e => .error e
                | .ok u2 => .ok u2
              else .ok (some u)
          match next with
          | .error e => .error e
          | .ok none => .ok (some pool_addr, none)
          | .ok (some u) =>
            if u = ("") ∨ u.length < 66 then .ok (some pool_addr, none)
            else .ok (some pool_addr, some ("0x" ++ strLastN 40 u))

/-- Decode of one collateralTokenByMask return inside get_collateral_tokens:
missing result, the 0x marker or an undersized payload is an empty decode
(skip); a non-hex payload raises (bytes.fromhex). On success: the token
address from the low 20 bytes of the first word and the liquidation
threshold from the second word. -/
def decodeCollateralPair (result : Option String) :
    Except Unit (Option (String × Nat)) :=
  match result with
  | none => .ok none
  | some r =>
    if r = ("") ∨ r = ("0x") ∨ r.length < 130 then .ok none
    else
      match fromHexChars (r.toList.drop 2) with
      | none => .error ()
      | some raw =>
        .ok (some ("0x" ++ bytesHex (lastN 20 (pySlice raw 0 32)),
                   bytesToNat (pySlice raw 32 64)))

/-- One bit's work in get_collateral_tokens: the eth_call with the
single-bit mask argument followed by the pair decode. -/
def collStep (oracle : EthOracle) (cm_addr : String) (bit : Nat) :
    Except Unit (Option (String × Nat)) :=
  match oracle cm_addr (SEL_COLLATERAL_TOKEN ++ padMask bit) with
  | .error e => .error e
  | .ok result => decodeCollateralPair result

/-- The bit loop of get_collateral_tokens: bits are visited in ascending
order starting at `bit`, `fuel` many of them; unset bits and empty decodes
are skipped, a raised decode propagates. -/
def collLoop (step : Nat → Except Unit (Option (String × Nat))) (mask : Nat) :
    Nat → Nat → Except Unit (List (String × Nat))
  | _, 0 => .ok []
  | bit, fuel + 1 =>
    if mask &&& (1 <<< bit) = 0 then collLoop step mask (bit + 1) fuel
    else
      match step bit with
      | .error e => .error e
      | .ok none => collLoop step mask (bit + 1) fuel
      | .ok (some p) =>
        match collLoop step mask (bit + 1) fuel with
        | .error e => .error e
        | .ok rest => .ok (p :: rest)

/-- get_collateral_tokens: for every set bit 0..255 of the enabled mask,
query collateralTokenByMask with the single-bit mask and collect the
decoded (token address, liquidation threshold) pairs. -/
def get_collateral_tokens (oracle : EthOracle) (cm_addr : String)
    (enabled_mask : Nat) : Except Unit (List (String × Nat)) :=
  collLoop (collStep oracle cm_addr) enabled_mask 0 256

/-- get_token_name: display-time lookup in the in-process KNOWN_TOKENS
table only (no oracle is even available here); misses show the truncated
address. -/
def get_token_name (known : Known) (addr : String) : String :=
  match lookupKnown known (pyLower addr) with
  | some sd => sd.1
  | none => addr.take 10 ++ "..."

/-- get_token_decimals: display-time lookup in the in-process KNOWN_TOKENS
table only; misses assume 18 decimals. -/
def get_token_decimals (known : Known) (addr : String) : Nat :=
  match lookupKnown known (pyLower addr) with
  | some sd => sd.2
  | none => 18

/-- One collateral entry assembled by cmd_position for a retained account. -/
structure Collat where
  addr : String
  symbol : String
  decimals : Nat
  balance : Nat
  lt : Nat
deriving DecidableEq

/-- One found_accounts entry of cmd_position. -/
structure Position where
  acct : String
  cm : String
  underlying : Option String
  info : CreditAccountInfo
  collateral : List Collat
deriving DecidableEq

/-- Observable operations performed by the scan, recorded in the order the
Python code performs them (used to state which resolutions a manager or
account triggers). -/
inductive ScanOp where
  | listAccountsOp (cm : String)
  | resolveUnderlying (cm : String)
  | accountInfoOp (cm acct : String)
  | collateralScan (cm acct : String)
  | balanceRead (token acct : String)
  | tokenResolve (token : String)
deriving DecidableEq

/-- The list-accounts call of one manager (cmd_position lines 281-282):
eth_call with the creditAccounts() selector followed by the address-array
decode. -/
def listAccounts (oracle : EthOracle) (cm_addr : String) :
    Except Unit (List String) :=
  match oracle cm_addr SEL_CREDIT_ACCOUNTS with
  | .error e => .error e
  | .ok r => decode_addresses r

/-- The account-info fetch of cmd_position (lines 297-302): the eth_call
with the padded account argument and the struct decode, with every
exception caught (the surrounding try turns it into a skip, i.e. none). -/
def fetchAccountInfo (oracle : EthOracle) (cm_addr acct : String) :
    Option CreditAccountInfo :=
  match oracle cm_addr (SEL_CREDIT_ACCOUNT_INFO ++ pyPadAddr acct) with
  | .error _ => none
  | .ok r =>
    match decode_credit_account_info r with
    | .error _ => none
    | .ok info => info

/-- The collateral-assembly loop of cmd_position (lines 315-336): for each
resolved (token, threshold) pair read the balance (exceptions give 0) and
resolve the token through the cache; a transport exception inside
resolve_token is NOT caught there and escapes. -/
def buildCollateral (oracle : EthOracle) (acct : String) :
    List (String × Nat) → Known → Except Unit (List Collat × Known × List ScanOp)
  | [], known => .ok ([], known, [])
  | (tok, lt) :: rest, known =>
    let bal := match read_balance oracle tok acct with
      | .error _ => 0
      | .ok b => b
    match resolve_token oracle known tok with
    | .error e => .error e
    | .ok (sd, known1, _) =>
      match buildCollateral oracle acct rest known1 with
      | .error e => .error e
      | .ok (coll, known2, ops) =>
        .ok ({ addr := tok, symbol := sd.1, decimals := sd.2,
               balance := bal, lt := lt } :: coll, known2,
             ScanOp.balanceRead tok acct :: ScanOp.tokenResolve tok :: ops)

/-- The per-account body of cmd_position (lines 296-344): fetch and decode
the account info; retain the account only when the decoded borrower equals
the (already lowercased) queried wallet; for a retained account resolve its
collateral (an exception inside get_collateral_tokens gives the empty
list) and assemble the Position. -/
def processAccount (oracle : EthOracle) (wallet cm_addr : String)
    (underlying : Option String) (acct : String) (known : Known) :
    Except Unit (Option Position × Known × List ScanOp) :=
  match fetchAccountInfo oracle cm_addr acct with
  | none => .ok (none, known, [ScanOp.accountInfoOp cm_addr acct])
  | some info =>
    if pyLower info.borrower = wallet then
      let collRes := match get_collateral_tokens oracle cm_addr info.enabled_mask with
        | .error _ => []
        | .ok l => l
      match buildCollateral oracle acct collRes known with
      | .error e => .error e
      | .ok (coll, known1, ops) =>
        .ok (some { acct := acct, cm := cm_addr, underlying := underlying,
                    info := info, collateral := coll }, known1,
             ScanOp.accountInfoOp cm_addr acct :: ScanOp.collateralScan cm_addr acct :: ops)
    else .ok (none, known, [ScanOp.accountInfoOp cm_addr acct])

/-- The account loop of one manager. -/
def processAccounts (oracle : EthOracle) (wallet cm_addr : String)
    (underlying : Option String) :
    List String → Known → Except Unit (List Position × Known × List ScanOp)
  | [], known => .ok ([], known, [])
  | acct :: rest, known =>
    match processAccount oracle wallet cm_addr underlying acct known with
    | .error e => .error e
    | .ok (posOpt, known1, ops1) =>
      match processAccounts oracle wallet cm_addr underlying rest known1 with
      | .error e => .error e
      | .ok (ps, known2, ops2) =>
        .ok ((match posOpt with | some p => p :: ps | none => ps), known2, ops1 ++ ops2)

/-- One manager's pass of cmd_position (loop body, lines 279-344). The
result carries the positions found for this manager, the updated token
cache, the increment of the scanned counter (0 when the list-accounts call
raised, 1 otherwise) and the operations performed. With zero decoded
accounts the manager is left immediately: no underlying resolution and no
per-account work. -/
def scanManager (oracle : EthOracle) (wallet cm_addr : String) (known : Known) :
    Except Unit (List Position × Known × Nat × List ScanOp) :=
  match listAccounts oracle cm_addr with
  | .error _ => .ok ([], known, 0, [ScanOp.listAccountsOp cm_addr])
  | .ok accounts =>
    if accounts = [] then .ok ([], known, 1, [ScanOp.listAccountsOp cm_addr])
    else
      let underlying := match get_underlying oracle cm_addr with
        | .error _ => none
        | .ok pu => pu.2
      match processAccounts oracle wallet cm_addr underlying accounts known with
      | .error e => .error e
      | .ok (ps, known1, ops) =>
        .ok (ps, known1, 1,
             ScanOp.listAccountsOp cm_addr :: ScanOp.resolveUnderlying cm_addr :: ops)

/-- The manager loop of cmd_position, with the wallet already lowercased. -/
def scanManagers (oracle : EthOracle) (wallet : String) :
    List String → Known → Except Unit (List Position × Known × Nat × List ScanOp)
  | [], known => .ok ([], known, 0, [])
  | cm :: rest, known =>
    match scanManager oracle wallet cm known with
    | .error e => .error e
    | .ok (ps, known1, inc, ops1) =>
      match scanManagers oracle wallet rest known1 with
      | .error e => .error e
      | .ok (ps2, known2, inc2, ops2) =>
        .ok (ps ++ ps2, known2, inc + inc2, ops1 ++ ops2)

/-- The scanning phase of cmd_position: the wallet argument is lowercased
once (line 260) and every configured manager is visited. -/
def scanPosition (oracle : EthOracle) (walletArg : String) (cms : List String)
    (known : Known) : Except Unit (List Position × Known × Nat × List ScanOp) :=
  scanManagers oracle (pyLower walletArg) cms known

/-- Append an element to the accumulator unless already present: the
order-fixed model of Python set insertion during the token collection. -/
def insertUniq (acc : List String) (x : String) : List String :=
  if x ∈ acc then acc else acc ++ [x]

/-- The underlying's contribution to the price batch (cmd_position lines
354-355): added lowercased when truthy. -/
def addUnderlyingToken (acc : List String) : Option String → List String
  | none => acc
  | some u => if u = ("") then acc else insertUniq acc (pyLower u)

/-- The tokens one position contributes to the price batch (cmd_position
lines 353-357): the underlying when truthy, then every collateral entry's
address, all lowercased. -/
def addPositionTokens (acc : List String) (fa : Position) : List String :=
  fa.collateral.foldl (fun a c => insertUniq a (pyLower c.addr))
    (addUnderlyingToken acc fa.underlying)

/-- The full de-duplicated token-address set collected over all found
positions before the single batched price request. Python iterates a hash
set whose order is unspecified; the model fixes first-insertion order, and
the theorems below speak only about membership and distinctness. -/
def collectTokenAddrs (found : List Position) : List String :=
  found.foldl addPositionTokens []

/-- Python ",".join of the chain:address keys of fetch_prices. -/
def joinKeys (chain : String) : List String → String
  | [] => ""
  | [a] => chain ++ ":" ++ a
  | a :: rest => chain ++ ":" ++ a ++ "," ++ joinKeys chain rest

/-- fetch_prices: with an empty address list return the empty table without
touching the network; otherwise issue exactly one batched request (second
component counts requests). The aggregator response is modelled at the
boundary as the list of (key, price) pairs of its coins object, a request
failure as none; each key keeps its text left of the colon as the chain
prefix, and the table is keyed by the lowercased address part. -/
def fetch_prices (api : String → Option (List (String × ℚ)))
    (token_addrs : List String) (chain : String) : List (String × ℚ) × Nat :=
  if token_addrs = [] then ([], 0)
  else
    match api (joinKeys chain token_addrs) with
    | none => ([], 1)
    | some coins =>
      (coins.map (fun kp => (pyLower ((pySplitColon kp.1).getD 1 ("")), kp.2)), 1)

/-- Python prices.get(addr, 0): price table lookup with default 0. -/
def priceOf (prices : List (String × ℚ)) (addr : String) : ℚ :=
  match prices with
  | [] => 0
  | (k, p) :: rest => if k = addr then p else priceOf rest addr

/-- underlying_dec of the display loop (line 366): table decimals when the
underlying is truthy, else 18. -/
def underlyingDec (known : Known) : Option String → Nat
  | none => 18
  | some u => if u = ("") then 18 else get_token_decimals known u

/-- underlying_price of the display loop (line 367): table price by
lowercased address when the underlying is truthy, else 0. -/
def underlyingPrice (prices : List (String × ℚ)) : Option String → ℚ
  | none => 0
  | some u => if u = ("") then 0 else priceOf prices (pyLower u)

/-- underlying_name and underlying_dec of the display loop (lines 365-366):
pure table lookups, with the "?" and 18 placeholders for an absent
underlying. -/
def displayUnderlying (known : Known) : Option String → String × Nat
  | none => ("?", 18)
  | some u =>
    if u = ("") then ("?", 18)
    else (get_token_name known u, get_token_decimals known u)

/-- debt_usd of the display loop (lines 369-371): the raw debt scaled by
the underlying's decimals times the underlying's price. -/
def positionDebtUsd (known : Known) (prices : List (String × ℚ))
    (fa : Position) : ℚ :=
  ((fa.info.debt : ℚ) / 10 ^ underlyingDec known fa.underlying) *
    underlyingPrice prices fa.underlying

/-- total_coll_usd of the display loop (lines 387-394): sum over the
collateral entries of balance scaled by entry decimals times entry price. -/
def positionCollUsd (prices : List (String × ℚ)) (fa : Position) : ℚ :=
  fa.collateral.foldl
    (fun acc c => acc + ((c.balance : ℚ) / 10 ^ c.decimals) * priceOf prices (pyLower c.addr)) 0

/-- The summary block of the display loop (lines 404-410): the collateral
ratio is printed only inside the guard underlying_price > 0 and
total_coll_usd > 0, and then only when debt_usd > 0; `none` means the
ratio line is not printed at all. -/
def displayPosition (known : Known) (prices : List (String × ℚ))
    (fa : Position) : Option ℚ :=
  if 0 < underlyingPrice prices fa.underlying ∧ 0 < positionCollUsd prices fa then
    if 0 < positionDebtUsd known prices fa then
      some (positionCollUsd prices fa / positionDebtUsd known prices fa)
    else none
  else none

/-! Concrete fixtures used by the witnesses and counterexamples below. -/

/-- A 64-byte array payload whose offset word (64) points exactly past the
end of the buffer. -/
def exOverrunBytes : List Nat := List.replicate 31 0 ++ [64] ++ List.replicate 32 0

/-- Hex form of `exOverrunBytes`. -/
def exOverrunInput : String := "0x" ++ bytesHex exOverrunBytes

/-- A 64-byte array payload whose offset word (100) points well past the
end of the buffer. -/
def exOverrunBytes2 : List Nat := List.replicate 31 0 ++ [100] ++ List.replicate 32 0

/-- Hex form of `exOverrunBytes2`. -/
def exOverrunInput2 : String := "0x" ++ bytesHex exOverrunBytes2

/-- Example credit-account address bytes (0x1212...12). -/
def exAcctBytes : List Nat := List.replicate 20 18

/-- Example credit-account address. -/
def exAcct : String := "0x" ++ bytesHex exAcctBytes

/-- Example borrower address bytes (0xaaaa...aa). -/
def exWalletBytes : List Nat := List.replicate 20 170

/-- The queried wallet, in uppercase hex, to exercise the case-insensitive
comparison. -/
def exWalletArg : String := "0xAAAAAAAAAAAAAAAAAAAAAAAAAAAAAAAAAAAAAAAA"

/-- creditAccounts() payload listing exactly `exAcct`. -/
def exAccountsPayload : String :=
  "0x" ++ bytesHex (natToBeBytes 32 32 ++ natToBeBytes 32 1 ++ (List.replicate 12 0 ++ exAcctBytes))

/-- creditAccountInfo payload: seven zero words and borrower `exWalletBytes`. -/
def exInfoPayload : String :=
  "0x" ++ bytesHex (List.replicate 224 0 ++ (List.replicate 12 0 ++ exWalletBytes))

/-- Example CreditManager address. -/
def exCm : String := "0xcafe0000000000000000000000000000000000ca"

/-- Oracle for the scan-filter witness: one account whose borrower is the
queried wallet, everything else absent. -/
def exOracle2 : EthOracle := fun _ data =>
  if data = SEL_CREDIT_ACCOUNTS then .ok (some exAccountsPayload)
  else if data = SEL_CREDIT_ACCOUNT_INFO ++ pyPadAddr exAcct then .ok (some exInfoPayload)
  else .ok none

/-- The decoded info of `exInfoPayload`. -/
def exInfo : CreditAccountInfo :=
  ⟨0, 0, 0, 0, 0, 0, 0, "0x" ++ bytesHex exWalletBytes⟩

/-- The position `exOracle2` produces. -/
def exPos : Position := ⟨exAcct, exCm, none, exInfo, []⟩

/-- Token address for the resolver counterexample. -/
def exAddrCex5 : String := "0xaaaabbbbccccddddeeeeffff0000111122223333"

/-- A decimals() payload decoding to 6. -/
def exDecPayload : String := "0x" ++ bytesHex (List.replicate 31 0 ++ [6])

/-- Oracle whose symbol() call fails (RPC-level None) while decimals()
succeeds with 6. -/
def exOracleCex5 : EthOracle := fun _ data =>
  if data = SEL_SYMBOL then .ok none
  else if data = SEL_DECIMALS then .ok (some exDecPayload)
  else .ok none

/-- Oracle on which every call returns the RPC-level None. -/
def exOracleW5 : EthOracle := fun _ _ => .ok none

/-- Token address for the resolver witness. -/
def exAddrW5 : String := "0xdeadbeef00112233445566778899aabbccddeeff"

/-- A collateralTokenByMask payload of length 130 that is not valid hex. -/
def exBadHex : String := "0x" ++ String.mk (List.replicate 128 'z')

/-- Token bytes 0x1111...11 for collateral payloads. -/
def exTokenBytes : List Nat := List.replicate 20 17

/-- A well-formed collateralTokenByMask payload: token `exTokenBytes`,
liquidation threshold 9000. -/
def exCollPayload : String :=
  "0x" ++ bytesHex ((List.replicate 12 0 ++ exTokenBytes) ++ natToBeBytes 32 9000)

/-- Oracle for the collateral counterexample: bit 0 answers with broken
hex, bit 1 with a decodable pair. -/
def exOracleCex8 : EthOracle := fun _ data =>
  if data = SEL_COLLATERAL_TOKEN ++ padMask 0 then .ok (some exBadHex)
  else if data = SEL_COLLATERAL_TOKEN ++ padMask 1 then .ok (some exCollPayload)
  else .ok none

/-- Oracle for the collateral witness: bit 0 answers with the 0x no-data
marker, bit 1 with a decodable pair. -/
def exOracleW8 : EthOracle := fun _ data =>
  if data = SEL_COLLATERAL_TOKEN ++ padMask 0 then .ok (some ("0x"))
  else if data = SEL_COLLATERAL_TOKEN ++ padMask 1 then .ok (some exCollPayload)
  else .ok none

/-- An ABI address-array payload with offset 32 and length 0. -/
def exEmptyArrayPayload : String := "0x" ++ bytesHex (natToBeBytes 32 32 ++ natToBeBytes 32 0)

/-- Oracle for the zero-accounts witness: the manager lists zero accounts
and nothing else answers. -/
def exOracle9 : EthOracle := fun _ data =>
  if data = SEL_CREDIT_ACCOUNTS then .ok (some exEmptyArrayPayload) else .ok none

/-- An all-zero account info record. -/
def exInfoZero : CreditAccountInfo := ⟨0, 0, 0, 0, 0, 0, 0, "0x"⟩

/-- Position with one collateral entry, for the aggregation witness. Its
underlying is spelled in uppercase to exercise the lowercasing. -/
def exPos6a : Position :=
  ⟨"0xacct1", "0xcm1", some "0xAA11", exInfoZero, [⟨"0xbb22", "T1", 18, 5, 9000⟩]⟩

/-- Position sharing the same underlying (lowercase spelling). -/
def exPos6b : Position := ⟨"0xacct2", "0xcm2", some "0xaa11", exInfoZero, []⟩

/-- A price-API stub for the aggregation witness. -/
def exApi6 : String → Option (List (String × ℚ)) :=
  fun _ => some [("ethereum:0xaa11", 2)]

/-- Position for the ratio witness: debt 10^18 at 18 decimals, one
collateral entry of 5 units at 0 decimals. -/
def exPos7 : Position :=
  ⟨"0xacct7", "0xcm7", some "0xaa77", ⟨10 ^ 18, 0, 0, 0, 0, 0, 0, "0x"⟩,
   [⟨"0xcc77", "T7", 0, 5, 9000⟩]⟩

/-- Price table for the ratio witness. -/
def exPrices7 : List (String × ℚ) := [("0xaa77", 2), ("0xcc77", 3)]

/-- An address absent from the static KNOWN_TOKENS table. -/
def exAddr10 : String := "0x1234567890abcdef1234567890abcdef12345678"

/-! Helper lemmas about the hex codec primitives. -/

theorem hexVal_hexDigit : ∀ n, n < 16 → hexVal (hexDigit n) = some n := by decide

theorem fromHexChars_length : ∀ (l : List Char) (r : List Nat),
    fromHexChars l = some r → l.length = 2 * r.length
  | [], r, h => by
    simp only [fromHexChars, Option.some.injEq] at h
    subst h
    rfl
  | [c], r, h => by exact absurd h (by simp [fromHexChars])
  | c1 :: c2 :: rest, r, h => by
    simp only [fromHexChars] at h
    rcases hv1 : hexVal c1 with _ | v1 <;> rw [hv1] at h <;>
      rcases hv2 : hexVal c2 with _ | v2 <;> rw [hv2] at h <;>
        rcases hr : fromHexChars rest with _ | r0 <;> rw [hr] at h <;>
          simp only [Option.some.injEq, reduceCtorEq] at h
    have ih := fromHexChars_length rest r0 hr
    subst h
    simp only [List.length_cons, ih]
    ring

theorem fromHexChars_byte (b : Nat) (hb : b < 256) (rest : List Char) :
    fromHexChars (byteToHexChars b ++ rest) = (fromHexChars rest).map (fun r => b :: r) := by
  have h1 : b / 16 < 16 := by omega
  have h2 : b % 16 < 16 := Nat.mod_lt _ (by omega)
  rw [show byteToHexChars b ++ rest = hexDigit (b / 16) :: hexDigit (b % 16) :: rest from rfl]
  simp only [fromHexChars, hexVal_hexDigit _ h1, hexVal_hexDigit _ h2]
  rcases hr : fromHexChars rest with _ | r0
  · rfl
  · have heq : b / 16 * 16 + b % 16 = b := by omega
    show some ((b / 16 * 16 + b % 16) :: r0) = some (b :: r0)
    rw [heq]

theorem fromHexChars_bytesToHexChars :
    ∀ (l : List Nat), (∀ b ∈ l, b < 256) → fromHexChars (bytesToHexChars l) = some l
  | [], _ => rfl
  | b :: rest, h => by
    have hb : b < 256 := h b (List.mem_cons_self b rest)
    have hrest := fromHexChars_bytesToHexChars rest (fun x hx => h x (List.mem_cons_of_mem b hx))
    simp only [bytesToHexChars, fromHexChars_byte b hb, hrest]
    rfl

theorem bytesToNat_append (xs : List Nat) (b : Nat) :
    bytesToNat (xs ++ [b]) = bytesToNat xs * 256 + b := by
  simp [bytesToNat, List.foldl_append]

theorem natToBeBytes_length : ∀ w n, (natToBeBytes w n).length = w
  | 0, _ => rfl
  | w + 1, n => by
    simp only [natToBeBytes, List.length_append, natToBeBytes_length w (n / 256),
      List.length_cons, List.length_nil]

theorem natToBeBytes_lt : ∀ w n, ∀ b ∈ natToBeBytes w n, b < 256
  | 0, _, b, hb => by simp [natToBeBytes] at hb
  | w + 1, n, b, hb => by
    simp only [natToBeBytes, List.mem_append, List.mem_singleton] at hb
    rcases hb with hb | hb
    · exact natToBeBytes_lt w (n / 256) b hb
    · subst hb
      exact Nat.mod_lt _ (by omega)

theorem bytesToNat_natToBeBytes : ∀ w n, bytesToNat (natToBeBytes w n) = n % 256 ^ w
  | 0, n => by simp [natToBeBytes, bytesToNat, Nat.mod_one]
  | w + 1, n => by
    rw [natToBeBytes, bytesToNat_append, bytesToNat_natToBeBytes w (n / 256),
      pow_succ, mul_comm ((256 : ℕ) ^ w) 256, Nat.mod_mul]
    ring

theorem bytesToHexChars_length : ∀ l : List Nat, (bytesToHexChars l).length = 2 * l.length
  | [] => rfl
  | b :: rest => by
    simp only [bytesToHexChars, byteToHexChars, List.cons_append, List.nil_append,
      List.length_cons, bytesToHexChars_length rest]
    ring

theorem hexString_length (l : List Nat) : ("0x" ++ bytesHex l).length = 2 + 2 * l.length := by
  rw [String.length_append]
  have : (bytesHex l).length = 2 * l.length := bytesToHexChars_length l
  rw [this]
  rfl

theorem hexString_toList_drop (l : List Nat) :
    ("0x" ++ bytesHex l).toList.drop 2 = bytesToHexChars l := by
  have : ("0x" ++ bytesHex l).toList = "0x".toList ++ (bytesHex l).toList :=
    String.data_append _ _
  rw [this]
  rfl

/-- C3: every return payload shorter than the minimum valid size, the
Python None result, the empty string, and the literal 0x marker make
decode_addresses return the empty list and decode_credit_account_info
return the explicit no-data result; in no such case is an exception
raised (the result is .ok) or a zero-filled struct produced. -/
theorem decoders_short_input :
    decode_addresses none = .ok [] ∧
    decode_addresses (some ("")) = .ok [] ∧
    decode_addresses (some ("0x")) = .ok [] ∧
    (∀ s : String, s.length < 130 → decode_addresses (some s) = .ok []) ∧
    decode_credit_account_info none = .ok none ∧
    decode_credit_account_info (some ("")) = .ok none ∧
    decode_credit_account_info (some ("0x")) = .ok none ∧
    (∀ s : String, s.length < 514 → decode_credit_account_info (some s) = .ok none) := by
  refine ⟨rfl, rfl, rfl, ?_, rfl, rfl, rfl, ?_⟩
  · intro s h
    simp only [decode_addresses]
    rw [if_pos (Or.inr (Or.inr h))]
  · intro s h
    simp only [decode_credit_account_info]
    rw [if_pos (Or.inr (Or.inr h))]

/-- Witness for decoders_short_input at the undersized input 0xabc. -/
theorem decoders_short_input_witness :
    decode_addresses (some ("0xabc")) = .ok [] ∧
    decode_credit_account_info (some ("0xabc")) = .ok none :=
  ⟨decoders_short_input.2.2.2.1 ("0xabc") (by decide),
   decoders_short_input.2.2.2.2.2.2.2 ("0xabc") (by decide)⟩

/-- C9: a manager whose account-list call succeeds and decodes to zero
accounts contributes no positions, leaves the token cache untouched,
performs no operation beyond the single list-accounts call (in particular
no underlying-token resolution and no collateral resolution), and still
increments the scanned counter by one. -/
theorem scan_zero_accounts (oracle : EthOracle) (wallet cm_addr : String) (known : Known)
    (h : listAccounts oracle cm_addr = .ok []) :
    scanManager oracle wallet cm_addr known =
      .ok ([], known, 1, [ScanOp.listAccountsOp cm_addr]) := by
  simp only [scanManager, h]
  rw [if_pos trivial]

/-- Witness for scan_zero_accounts on a concrete oracle returning an
encoded empty address array. -/
theorem scan_zero_accounts_witness :
    scanManager exOracle9 ("0xw9") ("0xcm9") KNOWN_TOKENS =
      .ok ([], KNOWN_TOKENS, 1, [ScanOp.listAccountsOp ("0xcm9")]) :=
  scan_zero_accounts exOracle9 ("0xw9") ("0xcm9") KNOWN_TOKENS (by decide)

/-- C10: the position report's underlying display consults only the
in-process KNOWN_TOKENS table (displayUnderlying takes no oracle, so no
on-chain symbol or decimals read can occur); an underlying absent from
the table at display time is shown as the first 10 characters of its
address followed by three dots, with decimals assumed 18. -/
theorem underlying_display_table_only (known : Known) (u : String)
    (hne : u ≠ ("")) (hmiss : lookupKnown known (pyLower u) = none) :
    displayUnderlying known (some u) = (u.take 10 ++ "...", 18) := by
  simp only [displayUnderlying]
  rw [if_neg hne]
  simp only [get_token_name, get_token_decimals, hmiss]

/-- Witness for underlying_display_table_only at an address outside the
static table. -/
theorem underlying_display_table_only_witness :
    displayUnderlying KNOWN_TOKENS (some exAddr10) = (exAddr10.take 10 ++ "...", 18) :=
  underlying_display_table_only KNOWN_TOKENS exAddr10 (by decide) (by decide)

/-- C1 counterexample: this 64-byte array payload has offset word 64, so
reading the length word at byte 64 would read past the end of the buffer;
the claim demands a decode error, but decode_addresses succeeds and
silently returns the empty list (Python slices clamp, so the length word
reads as 0). -/
theorem decode_addresses_overrun_silent :
    decode_addresses (some exOverrunInput) = .ok [] := rfl

/-- C1 amended: when the offset word points at or past the end of the
buffer, the length slice is empty, the length word reads as zero, and
decode_addresses returns .ok [] - it neither raises a decode error nor
truncates into partial addresses. -/
theorem decode_addresses_offset_past_end (s : String) (raw : List Nat)
    (hlen : 130 ≤ s.length)
    (hhex : fromHexChars (s.toList.drop 2) = some raw)
    (hoff : raw.length ≤ bytesToNat (pySlice raw 0 32)) :
    decode_addresses (some s) = .ok [] := by
  have hne1 : s ≠ ("") := by
    intro h
    rw [h] at hlen
    exact absurd hlen (by decide)
  have hne2 : s ≠ ("0x") := by
    intro h
    rw [h] at hlen
    exact absurd hlen (by decide)
  have hltl : ¬ s.length < 130 := not_lt.mpr hlen
  have hdl : (s.toList.drop 2).length = s.length - 2 := by
    rw [List.length_drop]
    rfl
  have hrawlen : ¬ raw.length < 64 := by
    have h2 := fromHexChars_length _ _ hhex
    omega
  have hsl : pySlice raw (bytesToNat (pySlice raw 0 32))
      (bytesToNat (pySlice raw 0 32) + 32) = [] := by
    show (raw.drop (bytesToNat (pySlice raw 0 32))).take
        (bytesToNat (pySlice raw 0 32) + 32 - bytesToNat (pySlice raw 0 32)) = []
    rw [List.drop_eq_nil_of_le hoff, List.take_nil]
  simp only [decode_addresses]
  rw [if_neg (by push_neg; exact ⟨hne1, hne2, hlen⟩)]
  simp only [hhex]
  rw [if_neg hrawlen]
  simp only [hsl]
  rfl

/-- Witness for decode_addresses_offset_past_end at a payload whose
offset word is 100. -/
theorem decode_addresses_offset_past_end_witness :
    decode_addresses (some exOverrunInput2) = .ok [] :=
  decode_addresses_offset_past_end exOverrunInput2
    (List.replicate 31 0 ++ [100] ++ List.replicate 32 0) (by decide) (by decide) (by decide)

/-- C5 counterexample: here the on-chain symbol call fails (RPC None) while
the decimals call succeeds decoding 6; the claim demands that a failure of
either call force decimals 18 together with the truncated-address symbol,
but the resolved entry keeps the successfully decoded decimals 6. -/
theorem resolve_token_fallback_not_joint :
    read_token_symbol exOracleCex5 exAddrCex5 = .ok none ∧
    resolve_token exOracleCex5 [] exAddrCex5 =
      .ok ((exAddrCex5.take 10 ++ "...", 6),
           [(exAddrCex5, exAddrCex5.take 10 ++ "...", 6)], 2) ∧
    (6 : Nat) ≠ 18 :=
  ⟨rfl, by decide, by decide⟩

/-- C5 amended: token resolution is idempotent within a run - once an
address has resolved, resolving it again issues no network calls and
returns the identical (symbol, decimals) pair with the cache unchanged -
and the fallbacks are per field: a failed or empty symbol decode gives the
truncated-address symbol, and the decimals are whatever decimals() call
produced, with read_token_decimals itself falling back to 18 exactly when
its own call fails or decodes empty. -/
theorem resolve_token_idempotent_fallback (oracle : EthOracle) (known : Known)
    (addr : String) (res : String × Nat) (known' : Known) (n : Nat)
    (h : resolve_token oracle known addr = .ok (res, known', n)) :
    resolve_token oracle known' addr = .ok (res, known', 0) ∧
    (lookupKnown known (pyLower addr) = none →
      ((read_token_symbol oracle addr = .ok none ∨
          read_token_symbol oracle addr = .ok (some (""))) →
        res.1 = addr.take 10 ++ "...") ∧
      (∀ d, read_token_decimals oracle addr = .ok d → res.2 = d)) ∧
    (oracle addr SEL_DECIMALS = .ok none → read_token_decimals oracle addr = .ok 18) ∧
    (oracle addr SEL_DECIMALS = .ok (some ("0x")) → read_token_decimals oracle addr = .ok 18) := by
  have hdec18a : oracle addr SEL_DECIMALS = .ok none →
      read_token_decimals oracle addr = .ok 18 := by
    intro ho
    simp [read_token_decimals, ho]
  have hdec18b : oracle addr SEL_DECIMALS = .ok (some ("0x")) →
      read_token_decimals oracle addr = .ok 18 := by
    intro ho
    simp [read_token_decimals, ho]
  refine ⟨?_, ?_, hdec18a, hdec18b⟩
  · rcases hk : lookupKnown known (pyLower addr) with _ | sd
    · simp only [resolve_token, hk] at h
      cases hs : read_token_symbol oracle addr <;> rw [hs] at h
      · simp at h
      case ok symRes =>
      cases hd : read_token_decimals oracle addr <;> rw [hd] at h
      · simp at h
      case ok dec =>
      injection h with hA
      injection hA with h1 hBC
      injection hBC with h2 h3
      subst h1
      subst h2
      simp [resolve_token, lookupKnown]
    · simp only [resolve_token, hk] at h
      injection h with hA
      injection hA with h1 hBC
      injection hBC with h2 h3
      subst h1
      subst h2
      simp [resolve_token, hk]
  · intro hmiss
    simp only [resolve_token, hmiss] at h
    cases hs : read_token_symbol oracle addr <;> rw [hs] at h
    · simp at h
    case ok symRes =>
    cases hd : read_token_decimals oracle addr <;> rw [hd] at h
    · simp at h
    case ok dec =>
    injection h with hA
    injection hA with h1 hBC
    subst h1
    constructor
    · rintro (hn1 | hn1) <;> injection hn1 with hq <;> subst hq <;> simp
    · intro d hdd
      injection hdd with hq

/-- Witness for resolve_token_idempotent_fallback: after a first
resolution on an all-failing oracle, the second resolution hits the cache,
issues no calls and returns the same entry. -/
theorem resolve_token_idempotent_fallback_witness :
    resolve_token exOracleW5 [(pyLower exAddrW5, exAddrW5.take 10 ++ "...", 18)] exAddrW5 =
      .ok ((exAddrW5.take 10 ++ "...", 18),
           [(pyLower exAddrW5, exAddrW5.take 10 ++ "...", 18)], 0) :=
  (resolve_token_idempotent_fallback exOracleW5 [] exAddrW5
    (exAddrW5.take 10 ++ "...", 18)
    [(pyLower exAddrW5, exAddrW5.take 10 ++ "...", 18)] 2 (by decide)).1

theorem decode_credit_account_info_eval (s : String) (raw : List Nat)
    (hg : ¬(s = ("") ∨ s = ("0x") ∨ s.length < 514))
    (hhex : fromHexChars (s.toList.drop 2) = some raw) :
    decode_credit_account_info (some s) = .ok (some
      { debt := bytesToNat (pySlice raw 0 32)
        cumulative_index := bytesToNat (pySlice raw 32 64)
        quota_interest := bytesToNat (pySlice raw 64 96)
        quota_fees := bytesToNat (pySlice raw 96 128)
        enabled_mask := bytesToNat (pySlice raw 128 160)
        flags := bytesToNat (pySlice raw 160 192)
        last_update := bytesToNat (pySlice raw 192 224)
        borrower := "0x" ++ bytesHex (lastN 20 (pySlice raw 224 256)) }) := by
  simp only [decode_credit_account_info]
  rw [if_neg hg, hhex]

/-- C4: for every 256-byte struct payload - the hex rendering of a first
word encoding the debt d, 192 middle bytes, and a 32-byte eighth word -
the decoder reads the fields positionally: the first word round-trips as
the debt value and the borrower is the hex rendering of the low 20 bytes
of the eighth word. -/
theorem decode_credit_account_info_fields (d : Nat) (mid w8 raw : List Nat) (s : String)
    (hd : d < 2 ^ 256) (hm : mid.length = 192) (hw : w8.length = 32)
    (hmb : ∀ b ∈ mid, b < 256) (hwb : ∀ b ∈ w8, b < 256)
    (hraw : raw = natToBeBytes 32 d ++ mid ++ w8)
    (hs : s = "0x" ++ bytesHex raw) :
    ∃ info, decode_credit_account_info (some s) = .ok (some info) ∧
      info.debt = d ∧ info.borrower = "0x" ++ bytesHex (w8.drop 12) := by
  have hAlen : (natToBeBytes 32 d).length = 32 := natToBeBytes_length 32 d
  have hrawlen : raw.length = 256 := by
    rw [hraw]
    simp [hAlen, hm, hw]
  have hbytes : ∀ b ∈ raw, b < 256 := by
    rw [hraw]
    intro b hb
    simp only [List.mem_append] at hb
    rcases hb with (hb | hb) | hb
    · exact natToBeBytes_lt 32 d b hb
    · exact hmb b hb
    · exact hwb b hb
  have hslen : s.length = 514 := by
    rw [hs, hexString_length, hrawlen]
  have hg : ¬(s = ("") ∨ s = ("0x") ∨ s.length < 514) := by
    push_neg
    refine ⟨?_, ?_, ?_⟩
    · intro hc
      rw [hc] at hslen
      exact absurd hslen (by decide)
    · intro hc
      rw [hc] at hslen
      exact absurd hslen (by decide)
    · rw [hslen]
  have hhex : fromHexChars (s.toList.drop 2) = some raw := by
    rw [hs, hexString_toList_drop]
    exact fromHexChars_bytesToHexChars _ hbytes
  have hsl1 : pySlice raw 0 32 = natToBeBytes 32 d := by
    rw [hraw]
    show ((natToBeBytes 32 d ++ mid ++ w8).drop 0).take (32 - 0) = natToBeBytes 32 d
    rw [List.drop_zero, List.append_assoc, show 32 - 0 = (natToBeBytes 32 d).length from by omega,
      List.take_left]
  have hsl8 : pySlice raw 224 256 = w8 := by
    rw [hraw]
    show ((natToBeBytes 32 d ++ mid ++ w8).drop 224).take (256 - 224) = w8
    have hlen12 : (natToBeBytes 32 d ++ mid).length = 224 := by simp [hAlen, hm]
    rw [show 224 = (natToBeBytes 32 d ++ mid).length from hlen12.symm, List.drop_left]
    rw [show (natToBeBytes 32 d ++ mid).length = 224 from hlen12]
    rw [show (256 : Nat) - 224 = w8.length from by omega, List.take_length]
  have hlast : lastN 20 w8 = w8.drop 12 := by
    show w8.drop (w8.length - 20) = w8.drop 12
    rw [hw]
  have hpow : (256 : ℕ) ^ 32 = 2 ^ 256 := by norm_num
  refine ⟨_, decode_credit_account_info_eval s raw hg hhex, ?_, ?_⟩
  · show bytesToNat (pySlice raw 0 32) = d
    rw [hsl1, bytesToNat_natToBeBytes, hpow]
    exact Nat.mod_eq_of_lt hd
  · show "0x" ++ bytesHex (lastN 20 (pySlice raw 224 256)) = "0x" ++ bytesHex (w8.drop 12)
    rw [hsl8, hlast]

/-- Witness for decode_credit_account_info_fields: debt 10^18 and the
borrower word 0x...1111111111111111111111111111111111111111. -/
theorem decode_credit_account_info_fields_witness :
    ∃ info, decode_credit_account_info
        (some ("0x" ++ bytesHex (natToBeBytes 32 (10 ^ 18) ++ List.replicate 192 0 ++
          (List.replicate 12 0 ++ List.replicate 20 17)))) = .ok (some info) ∧
      info.debt = 10 ^ 18 ∧
      info.borrower = "0x" ++ bytesHex ((List.replicate 12 0 ++ List.replicate 20 17).drop 12) :=
  decode_credit_account_info_fields (10 ^ 18) (List.replicate 192 0)
    (List.replicate 12 0 ++ List.replicate 20 17)
    (natToBeBytes 32 (10 ^ 18) ++ List.replicate 192 0 ++
      (List.replicate 12 0 ++ List.replicate 20 17))
    ("0x" ++ bytesHex (natToBeBytes 32 (10 ^ 18) ++ List.replicate 192 0 ++
      (List.replicate 12 0 ++ List.replicate 20 17)))
    (by norm_num) (by decide) (by decide) (by decide) (by decide) rfl rfl

theorem priceOf_nonneg : ∀ (prices : List (String × ℚ)), (∀ kp ∈ prices, 0 ≤ kp.2) →
    ∀ a, 0 ≤ priceOf prices a
  | [], _, a => le_refl 0
  | (k, p) :: rest, hp, a => by
    simp only [priceOf]
    split
    · exact hp (k, p) (List.mem_cons_self _ _)
    · exact priceOf_nonneg rest (fun kp hkp => hp kp (List.mem_cons_of_mem _ hkp)) a

theorem underlyingPrice_nonneg (prices : List (String × ℚ))
    (hp : ∀ kp ∈ prices, 0 ≤ kp.2) :
    ∀ u : Option String, 0 ≤ underlyingPrice prices u
  | none => le_refl 0
  | some s => by
    simp only [underlyingPrice]
    split
    · exact le_refl 0
    · exact priceOf_nonneg prices hp _

/-- C7: the collateral ratio is computed and reported exactly when both
the USD debt and the USD collateral are strictly positive (given a price
table with nonnegative prices); otherwise no ratio value is produced at
all, so the division never happens with a zero denominator. When it is
reported, its value is collateral divided by debt. -/
theorem collateral_ratio_guard (known : Known) (prices : List (String × ℚ)) (fa : Position)
    (hp : ∀ kp ∈ prices, 0 ≤ kp.2) :
    ((displayPosition known prices fa).isSome ↔
      0 < positionDebtUsd known prices fa ∧ 0 < positionCollUsd prices fa) ∧
    (∀ r, displayPosition known prices fa = some r →
      r = positionCollUsd prices fa / positionDebtUsd known prices fa) := by
  have hpnn : 0 ≤ underlyingPrice prices fa.underlying := underlyingPrice_nonneg prices hp _
  have hqnn : 0 ≤ (fa.info.debt : ℚ) / 10 ^ underlyingDec known fa.underlying := by positivity
  constructor
  · constructor
    · intro hsome
      simp only [displayPosition] at hsome
      split_ifs at hsome with h1 h2
      · exact ⟨h2, h1.2⟩
      · simp at hsome
      · simp at hsome
    · rintro ⟨hdebt, hcoll⟩
      have hprice : 0 < underlyingPrice prices fa.underlying := by
        rcases lt_or_eq_of_le hpnn with h | h
        · exact h
        · exfalso
          rw [positionDebtUsd, ← h, mul_zero] at hdebt
          exact lt_irrefl 0 hdebt
      simp only [displayPosition]
      rw [if_pos ⟨hprice, hcoll⟩, if_pos hdebt]
      rfl
  · intro r hr
    simp only [displayPosition] at hr
    split_ifs at hr
    exact (Option.some.inj hr).symm

/-- Witness for collateral_ratio_guard at a position with positive debt
and collateral value. -/
theorem collateral_ratio_guard_witness :
    (displayPosition [] exPrices7 exPos7).isSome ↔
      0 < positionDebtUsd [] exPrices7 exPos7 ∧ 0 < positionCollUsd exPrices7 exPos7 :=
  (collateral_ratio_guard [] exPrices7 exPos7 (by decide)).1

theorem and_one_shiftLeft_eq_zero (m i : ℕ) :
    m &&& (1 <<< i) = 0 ↔ m.testBit i = false := by
  rw [Nat.shiftLeft_eq, one_mul, Nat.and_two_pow]
  cases h : m.testBit i
  · simp
  · simp [pow_ne_zero]

theorem and_shift_xor_self (m b : ℕ) (h : m &&& (1 <<< b) ≠ 0) :
    (m ^^^ (1 <<< b)) &&& (1 <<< b) = 0 := by
  rw [and_one_shiftLeft_eq_zero]
  have hm : m.testBit b = true := by
    rcases Bool.eq_false_or_eq_true (m.testBit b) with ht | hf
    · exact ht
    · exact absurd ((and_one_shiftLeft_eq_zero m b).mpr hf) h
  rw [Nat.testBit_xor, hm, Nat.shiftLeft_eq, one_mul, Nat.testBit_two_pow_self]
  rfl

theorem and_shift_xor_other (m b i : ℕ) (hne : b ≠ i) :
    (m ^^^ (1 <<< b)) &&& (1 <<< i) = m &&& (1 <<< i) := by
  simp only [Nat.shiftLeft_eq, one_mul]
  rw [Nat.and_two_pow, Nat.and_two_pow, Nat.testBit_xor,
    Nat.testBit_two_pow_of_ne hne, Bool.xor_false]

theorem collLoop_skip_bit (step : Nat → Except Unit (Option (String × Nat))) (mask b : ℕ)
    (hset : mask &&& (1 <<< b) ≠ 0) (hstep : step b = .ok none) :
    ∀ fuel start, collLoop step mask start fuel = collLoop step (mask ^^^ (1 <<< b)) start fuel := by
  intro fuel
  induction fuel with
  | zero => intro start; rfl
  | succ n ih =>
    intro start
    by_cases hsb : start = b
    · subst hsb
      simp only [collLoop]
      rw [if_neg hset, if_pos (and_shift_xor_self mask start hset), hstep]
      exact ih (start + 1)
    · simp only [collLoop]
      rw [and_shift_xor_other mask b start (fun hc => hsb hc.symm)]
      by_cases hz : mask &&& (1 <<< start) = 0
      · rw [if_pos hz, if_pos hz]
        exact ih (start + 1)
      · rw [if_neg hz, if_neg hz]
        cases hstep' : step start with
        | error e => rfl
        | ok o =>
          cases o with
          | none => exact ih (start + 1)
          | some p => rw [ih (start + 1)]

/-- C8 counterexample: bit 0 of the mask answers with a length-130 payload
that is not valid hex, so bytes.fromhex raises; the whole collection
aborts with the exception even though bit 1 decodes fine, instead of
skipping only bit 0 and returning the partial list with bit 1's pair. -/
theorem get_collateral_tokens_invalid_hex_aborts :
    get_collateral_tokens exOracleCex8 ("0xcm8") 3 = .error () ∧
    collStep exOracleCex8 ("0xcm8") 1 =
      .ok (some ("0x" ++ bytesHex exTokenBytes, 9000)) := by
  constructor
  · decide
  · decide

/-- C8 amended: for a set bit 0..255 whose collateralTokenByMask answer is
missing, the 0x marker, or an undersized payload (the decode failures the
guard recognises), only that bit is skipped: the collection equals the
collection for the mask with that bit cleared, so every other bit's pair
is still gathered. A payload that is not valid hex instead raises and the
caller falls back to an empty collateral list for the account. -/
theorem collateral_skip_failed_bit (oracle : EthOracle) (cm_addr : String) (mask b : ℕ)
    (hb : b < 256) (hset : mask &&& (1 <<< b) ≠ 0)
    (hfail : collStep oracle cm_addr b = .ok none) :
    get_collateral_tokens oracle cm_addr mask =
      get_collateral_tokens oracle cm_addr (mask ^^^ (1 <<< b)) :=
  collLoop_skip_bit (collStep oracle cm_addr) mask b hset hfail 256 0

/-- Witness for collateral_skip_failed_bit: bit 0 answers 0x (empty
decode), bit 1 decodes; the scan over mask 3 equals the scan over mask 2. -/
theorem collateral_skip_failed_bit_witness :
    get_collateral_tokens exOracleW8 ("0xcm8") 3 =
      get_collateral_tokens exOracleW8 ("0xcm8") (3 ^^^ (1 <<< 0)) :=
  collateral_skip_failed_bit exOracleW8 ("0xcm8") 3 0 (by decide) (by decide) (by decide)

theorem processAccount_spec (oracle : EthOracle) (wallet cm_addr : String)
    (u : Option String) (acct : String) (known : Known)
    (posOpt : Option Position) (known1 : Known) (ops1 : List ScanOp)
    (h : processAccount oracle wallet cm_addr u acct known = .ok (posOpt, known1, ops1)) :
    ((∃ p, posOpt = some p ∧ p.acct = acct) ↔
      ∃ info, fetchAccountInfo oracle cm_addr acct = some info ∧
        pyLower info.borrower = wallet) ∧
    (∀ p, posOpt = some p → p.acct = acct) := by
  cases hfi : fetchAccountInfo oracle cm_addr acct with
  | none =>
    simp only [processAccount, hfi] at h
    injection h with hA
    injection hA with h1 h2
    subst h1
    simp
  | some info =>
    simp only [processAccount, hfi] at h
    by_cases hcmp : pyLower info.borrower = wallet
    · rw [if_pos hcmp] at h
      cases hbc : buildCollateral oracle acct
          (match get_collateral_tokens oracle cm_addr info.enabled_mask with
            | .error _ => [] | .ok l => l) known with
      | error e =>
        rw [hbc] at h
        simp at h
      | ok trip =>
        obtain ⟨coll, known2, ops2⟩ := trip
        rw [hbc] at h
        injection h with hA
        injection hA with h1 hBC
        subst h1
        constructor
        · constructor
          · intro _
            exact ⟨info, rfl, hcmp⟩
          · intro _
            exact ⟨_, rfl, rfl⟩
        · intro p hp
          rw [← Option.some.inj hp]
    · rw [if_neg hcmp] at h
      injection h with hA
      injection hA with h1 h2
      subst h1
      constructor
      · constructor
        · rintro ⟨p, hp, _⟩
          exact absurd hp (by simp)
        · rintro ⟨info', hinfo', hcmp'⟩
          rw [Option.some.inj hinfo'] at hcmp
          exact absurd hcmp' hcmp
      · intro p hp
        exact absurd hp (by simp)

theorem processAccounts_mem (oracle : EthOracle) (wallet cm_addr : String) (u : Option String) :
    ∀ (accts : List String) (known : Known) (ps : List Position) (known1 : Known)
      (ops : List ScanOp),
      processAccounts oracle wallet cm_addr u accts known = .ok (ps, known1, ops) →
      ∀ acct, ((∃ p, p ∈ ps ∧ p.acct = acct) ↔
        (acct ∈ accts ∧ ∃ info, fetchAccountInfo oracle cm_addr acct = some info ∧
          pyLower info.borrower = wallet))
  | [], known, ps, known1, ops, h, acct => by
    simp only [processAccounts] at h
    injection h with hA
    injection hA with h1 h2
    subst h1
    simp
  | acct0 :: rest, known, ps, known1, ops, h, acct => by
    cases hpa : processAccount oracle wallet cm_addr u acct0 known with
    | error e =>
      simp [processAccounts, hpa] at h
    | ok trip =>
      obtain ⟨posOpt, known2, ops2⟩ := trip
      cases hrest : processAccounts oracle wallet cm_addr u rest known2 with
      | error e =>
        simp [processAccounts, hpa, hrest] at h
      | ok trip2 =>
        obtain ⟨ps2, known3, ops3⟩ := trip2
        simp only [processAccounts, hpa, hrest] at h
        injection h with hA
        injection hA with h1 hBC
        subst h1
        obtain ⟨hspec1, hspec2⟩ :=
          processAccount_spec oracle wallet cm_addr u acct0 known posOpt known2 ops2 hpa
        have ih := processAccounts_mem oracle wallet cm_addr u rest known2 ps2 known3 ops3 hrest acct
        cases posOpt with
        | none =>
          constructor
          · intro hex
            obtain ⟨hmem, hC⟩ := ih.mp hex
            exact ⟨List.mem_cons_of_mem _ hmem, hC⟩
          · rintro ⟨hmem, hC⟩
            rcases List.mem_cons.mp hmem with rfl | hmem'
            · rcases hspec1.mpr hC with ⟨p, hp, _⟩
              exact absurd hp (by simp)
            · exact ih.mpr ⟨hmem', hC⟩
        | some p0 =>
          have hacct0 : p0.acct = acct0 := hspec2 p0 rfl
          constructor
          · rintro ⟨p, hp, hpacct⟩
            rcases List.mem_cons.mp hp with rfl | hp'
            · rw [← hpacct, hacct0]
              exact ⟨List.mem_cons_self _ _, hspec1.mp ⟨p, rfl, hacct0⟩⟩
            · obtain ⟨hmem, hC⟩ := ih.mp ⟨p, hp', hpacct⟩
              exact ⟨List.mem_cons_of_mem _ hmem, hC⟩
          · rintro ⟨hmem, hC⟩
            rcases List.mem_cons.mp hmem with rfl | hmem'
            · exact ⟨p0, List.mem_cons_self _ _, hacct0⟩
            · obtain ⟨p, hp, ha⟩ := ih.mpr ⟨hmem', hC⟩
              exact ⟨p, List.mem_cons_of_mem _ hp, ha⟩

/-- C2: for every account enumerated from a manager, a position for that
account appears in the manager's scan output exactly when the decoded
borrower of that account equals the queried wallet under case-insensitive
comparison (both sides lowercased, as cmd_position lowercases the wallet
argument once and the borrower at the comparison). -/
theorem scan_borrower_filter (oracle : EthOracle) (walletArg cm_addr : String) (known : Known)
    (ps : List Position) (known1 : Known) (inc : Nat) (ops : List ScanOp)
    (accounts : List String)
    (hscan : scanManager oracle (pyLower walletArg) cm_addr known = .ok (ps, known1, inc, ops))
    (hacc : listAccounts oracle cm_addr = .ok accounts) :
    ∀ acct ∈ accounts,
      ((∃ p, p ∈ ps ∧ p.acct = acct) ↔
        ∃ info, fetchAccountInfo oracle cm_addr acct = some info ∧
          pyLower info.borrower = pyLower walletArg) := by
  intro acct hmem
  simp only [scanManager, hacc] at hscan
  by_cases hemp : accounts = []
  · rw [hemp] at hmem
    simp at hmem
  · rw [if_neg hemp] at hscan
    cases hpa : processAccounts oracle (pyLower walletArg) cm_addr
        (match get_underlying oracle cm_addr with
          | .error _ => none | .ok pu => pu.2) accounts known with
    | error e =>
      rw [hpa] at hscan
      simp at hscan
    | ok trip =>
      obtain ⟨ps2, known2, ops2⟩ := trip
      rw [hpa] at hscan
      injection hscan with hA
      injection hA with h1 hBC
      have h1' : ps2 = ps := h1
      rw [← h1']
      exact (processAccounts_mem oracle (pyLower walletArg) cm_addr _ accounts known ps2 known2
        ops2 hpa acct).trans (and_iff_right hmem)

/-- Witness for scan_borrower_filter: a scan over one manager with one
account whose decoded borrower is the lowercase form of the uppercase
queried wallet; the account's position is in the output and the borrower
comparison holds. -/
theorem scan_borrower_filter_witness :
    (∃ p, p ∈ [exPos] ∧ p.acct = exAcct) ↔
      ∃ info, fetchAccountInfo exOracle2 exCm exAcct = some info ∧
        pyLower info.borrower = pyLower exWalletArg :=
  scan_borrower_filter exOracle2 exWalletArg exCm KNOWN_TOKENS [exPos] KNOWN_TOKENS 1
    [ScanOp.listAccountsOp exCm, ScanOp.resolveUnderlying exCm,
     ScanOp.accountInfoOp exCm exAcct, ScanOp.collateralScan exCm exAcct]
    [exAcct] (by decide) (by decide) exAcct (by decide)

theorem mem_insertUniq (acc : List String) (x a : String) :
    a ∈ insertUniq acc x ↔ a ∈ acc ∨ a = x := by
  by_cases h : x ∈ acc
  · rw [insertUniq, if_pos h]
    constructor
    · exact Or.inl
    · rintro (ha | rfl)
      · exact ha
      · exact h
  · rw [insertUniq, if_neg h]
    simp [List.mem_append]

theorem nodup_insertUniq (acc : List String) (x : String) (h : acc.Nodup) :
    (insertUniq acc x).Nodup := by
  by_cases hx : x ∈ acc
  · rw [insertUniq, if_pos hx]
    exact h
  · rw [insertUniq, if_neg hx]
    exact List.Nodup.append h (List.nodup_singleton x)
      (fun a ha hax => hx (by rwa [List.mem_singleton.mp hax] at ha))

theorem mem_collFold : ∀ (cs : List Collat) (acc : List String) (a : String),
    a ∈ cs.foldl (fun ac c => insertUniq ac (pyLower c.addr)) acc ↔
      a ∈ acc ∨ ∃ c ∈ cs, a = pyLower c.addr
  | [], acc, a => by simp
  | c0 :: cs, acc, a => by
    simp only [List.foldl_cons]
    rw [mem_collFold cs (insertUniq acc (pyLower c0.addr)) a, mem_insertUniq]
    constructor
    · rintro ((ha | ha) | ⟨c, hc, ha⟩)
      · exact Or.inl ha
      · exact Or.inr ⟨c0, List.mem_cons_self _ _, ha⟩
      · exact Or.inr ⟨c, List.mem_cons_of_mem _ hc, ha⟩
    · rintro (ha | ⟨c, hc, ha⟩)
      · exact Or.inl (Or.inl ha)
      · rcases List.mem_cons.mp hc with rfl | hc'
        · exact Or.inl (Or.inr ha)
        · exact Or.inr ⟨c, hc', ha⟩

theorem nodup_collFold : ∀ (cs : List Collat) (acc : List String), acc.Nodup →
    (cs.foldl (fun ac c => insertUniq ac (pyLower c.addr)) acc).Nodup
  | [], _, h => h
  | c0 :: cs, acc, h => nodup_collFold cs _ (nodup_insertUniq _ _ h)

theorem mem_addPositionTokens (acc : List String) (fa : Position) (a : String) :
    a ∈ addPositionTokens acc fa ↔
      a ∈ acc ∨ (∃ u, fa.underlying = some u ∧ u ≠ ("") ∧ a = pyLower u) ∨
        ∃ c ∈ fa.collateral, a = pyLower c.addr := by
  simp only [addPositionTokens]
  rw [mem_collFold]
  cases hu : fa.underlying with
  | none => simp [addUnderlyingToken]
  | some u =>
    simp only [addUnderlyingToken]
    by_cases hne : u = ("")
    · subst hne
      rw [if_pos rfl]
      simp
    · rw [if_neg hne, mem_insertUniq]
      constructor
      · rintro ((ha | ha) | ⟨c, hc, ha⟩)
        · exact Or.inl ha
        · exact Or.inr (Or.inl ⟨u, rfl, hne, ha⟩)
        · exact Or.inr (Or.inr ⟨c, hc, ha⟩)
      · rintro (ha | ⟨u', hu', hne', ha⟩ | ⟨c, hc, ha⟩)
        · exact Or.inl (Or.inl ha)
        · rw [← Option.some.inj hu'] at ha
          exact Or.inl (Or.inr ha)
        · exact Or.inr ⟨c, hc, ha⟩

theorem nodup_addPositionTokens (acc : List String) (fa : Position) (h : acc.Nodup) :
    (addPositionTokens acc fa).Nodup := by
  simp only [addPositionTokens]
  apply nodup_collFold
  cases fa.underlying with
  | none => exact h
  | some u =>
    simp only [addUnderlyingToken]
    by_cases hne : u = ("")
    · rw [if_pos hne]
      exact h
    · rw [if_neg hne]
      exact nodup_insertUniq _ _ h

theorem mem_collectAux : ∀ (found : List Position) (acc : List String) (a : String),
    a ∈ found.foldl addPositionTokens acc ↔
      a ∈ acc ∨ ∃ fa ∈ found,
        ((∃ u, fa.underlying = some u ∧ u ≠ ("") ∧ a = pyLower u) ∨
          ∃ c ∈ fa.collateral, a = pyLower c.addr)
  | [], acc, a => by simp
  | fa0 :: found, acc, a => by
    simp only [List.foldl_cons]
    rw [mem_collectAux found _ a, mem_addPositionTokens]
    constructor
    · rintro ((ha | hcase) | ⟨fa, hfa, hcase⟩)
      · exact Or.inl ha
      · exact Or.inr ⟨fa0, List.mem_cons_self _ _, hcase⟩
      · exact Or.inr ⟨fa, List.mem_cons_of_mem _ hfa, hcase⟩
    · rintro (ha | ⟨fa, hfa, hcase⟩)
      · exact Or.inl (Or.inl ha)
      · rcases List.mem_cons.mp hfa with rfl | hfa'
        · exact Or.inl (Or.inr hcase)
        · exact Or.inr ⟨fa, hfa', hcase⟩

theorem nodup_collectAux : ∀ (found : List Position) (acc : List String), acc.Nodup →
    (found.foldl addPositionTokens acc).Nodup
  | [], _, h => h
  | fa0 :: found, acc, h => nodup_collectAux found _ (nodup_addPositionTokens _ _ h)

/-- C6: the batched token set collected before the single price request is
duplicate-free and contains exactly the lowercased underlying of every
position whose underlying is truthy together with the lowercased address
of every collateral entry of every position; the price fetch issues
exactly one request when the set is nonempty, and with an empty set the
table is empty and no request is issued. -/
theorem price_aggregation_spec (found : List Position)
    (api : String → Option (List (String × ℚ))) (chain : String) :
    (collectTokenAddrs found).Nodup ∧
    (∀ a, a ∈ collectTokenAddrs found ↔
      ∃ fa ∈ found, ((∃ u, fa.underlying = some u ∧ u ≠ ("") ∧ a = pyLower u) ∨
        ∃ c ∈ fa.collateral, a = pyLower c.addr)) ∧
    (collectTokenAddrs found ≠ [] →
      (fetch_prices api (collectTokenAddrs found) chain).2 = 1) ∧
    (collectTokenAddrs found = [] →
      fetch_prices api (collectTokenAddrs found) chain = ([], 0)) := by
  refine ⟨nodup_collectAux found [] List.nodup_nil, ?_, ?_, ?_⟩
  · intro a
    rw [collectTokenAddrs, mem_collectAux]
    simp
  · intro hne
    simp only [fetch_prices]
    rw [if_neg hne]
    cases api (joinKeys chain (collectTokenAddrs found)) <;> rfl
  · intro he
    rw [he]
    rfl

/-- Witness for price_aggregation_spec: two positions sharing one
underlying spelled in different cases plus one collateral token; the set
is duplicate-free and one batched request is issued. -/
theorem price_aggregation_spec_witness :
    (collectTokenAddrs [exPos6a, exPos6b]).Nodup ∧
    (fetch_prices exApi6 (collectTokenAddrs [exPos6a, exPos6b]) ("ethereum")).2 = 1 :=
  ⟨(price_aggregation_spec [exPos6a, exPos6b] exApi6 ("ethereum")).1,
   (price_aggregation_spec [exPos6a, exPos6b] exApi6 ("ethereum")).2.2.1 (by decide)⟩
